import Mathlib

/-!
Verification development for the TrustedHTML type of the trusted-types
polyfill.  The JavaScript source (src/types/trustedhtml.js) is shallowly
embedded: machine strings become `List Char` / `String`, the DOM fragment
tree becomes an inductive `Node`, thrown exceptions become `Except Err`,
and the module-level configuration (sanitizer registry plus the
unsafe-create gate) becomes an explicit `Config` record threaded through
the static operations.
-/

set_option maxRecDepth 10000

namespace TrustedTypes

/-- Error taxonomy of the component.  In the source each of these is a
thrown `TypeError`; the spec names them UntrustedMarkupError,
GateClosedError, RegistryFrozenError and UnknownSanitizerError.
`protoCallError` is a different TypeError: the one raised when the
sanitizer lookup falls through to a member of `Object.prototype` whose
invocation itself throws (a non-callable value, or a rejected accessor
argument) — distinct from the unknown-sanitizer guard.
`resolutionExhausted` is a modelling device: the real node iterator can
loop forever on self-feeding templates, and the embedding reports this
fuel exhaustion instead of diverging. -/
inductive Err where
  | untrustedMarkup
  | gateClosed
  | registryFrozen
  | unknownSanitizer
  | protoCallError
  | resolutionExhausted
deriving DecidableEq, Repr

/-- The TrustedHTML wrapper: a single trusted string, field `inner_` in
the source. -/
structure TrustedHTML where
  inner : String
deriving DecidableEq, Repr

/-- Models `TrustedHTML.prototype.toString`, which returns the inner
string unchanged. -/
def TrustedHTML.toText (t : TrustedHTML) : String :=
  t.inner

/-- A JavaScript value that can appear in the template expression results
list: a plain string, a TrustedHTML instance, or undefined (the value an
out-of-range array read produces). -/
inductive JSVal where
  | str (s : String)
  | trusted (t : TrustedHTML)
  | undef
deriving DecidableEq, Repr

/-- JavaScript string coercion of an expression result, as performed by
`setAttribute` and by `String.prototype.replace` on a callback result. -/
def JSVal.toStr : JSVal → String
  | .str s => s
  | .trusted t => t.inner
  | .undef => "undefined"

/-- Models the `value instanceof window[TrustedHTML]` check. -/
def JSVal.isTrusted : JSVal → Bool
  | .trusted _ => true
  | _ => false

/-- Array read `templateExpressionResults_[i]`: undefined when out of
range. -/
def lookupResult (results : List JSVal) (i : Nat) : JSVal :=
  results.getD i JSVal.undef

/-! ## Placeholder markers

The source regular expression is `/\$\$\$(\d+)\$\$\$/` (with the global
flag for text and inner markup, without it for attributes).  We model the
scan over `List Char` directly: at each position the engine tries to read
three dollar signs, a nonempty maximal run of digits, and three more
dollar signs. -/

/-- Numeric value of a digit run, as `Number(partId)` computes it for the
digit strings the marker pattern captures. -/
def digitsToNat (ds : List Char) : Nat :=
  ds.foldl (fun n c => n * 10 + (c.toNat - 48)) 0

/-- Try to match the marker pattern at the head of the list, returning
the captured index and the remainder after the match.  Greedy digit
matching needs no backtracking: if the maximal digit run is not followed
by three dollar signs, no shorter run can be (a shorter run would have to
be followed by a digit, not a dollar sign). -/
def matchMarkerAt : List Char → Option (Nat × List Char)
  | '$' :: '$' :: '$' :: s3 =>
    if (s3.takeWhile Char.isDigit).isEmpty then none
    else
      match s3.dropWhile Char.isDigit with
      | '$' :: '$' :: '$' :: rest => some (digitsToNat (s3.takeWhile Char.isDigit), rest)
      | _ => none
  | _ => none

/-- Leftmost marker match: the text before the match, the captured index,
and the text after the match. -/
def splitMarker : List Char → Option (List Char × Nat × List Char)
  | [] => none
  | c :: cs =>
    match matchMarkerAt (c :: cs) with
    | some (i, rest) => some ([], i, rest)
    | none =>
      match splitMarker cs with
      | some (pre, i, rest) => some (c :: pre, i, rest)
      | none => none

/-- Whether the marker pattern matches anywhere in the list, i.e. the
truthiness of `s.match(regexp)`. -/
def containsMarker (s : List Char) : Bool :=
  (splitMarker s).isSome

/-! The global replacement loops consume at least seven characters per
marker, so the input length is always enough fuel.  The recursion is made
structural on an explicit fuel argument (kept at the input length by the
wrappers below) so that the kernel can evaluate the functions on concrete
inputs; the stability lemmas show the fuel is irrelevant once it covers
the input length. -/

/-- Fueled worker for `replaceRaw`. -/
def replaceRawF : Nat → List JSVal → List Char → List Char
  | 0, _, s => s
  | fuel + 1, results, s =>
    match splitMarker s with
    | none => s
    | some (pre, i, rest) =>
      pre ++ (lookupResult results i).toStr.data ++ replaceRawF fuel results rest

/-- Global raw replacement of markers: each marker is replaced by the
string coercion of the looked-up expression result.  This is the text
node rule and the behaviour of `replaceWithExpressionResult_`. -/
def replaceRaw (results : List JSVal) (s : List Char) : List Char :=
  replaceRawF s.length results s

/-- Fueled worker for `replaceTrusted`. -/
def replaceTrustedF : Nat → List JSVal → List Char → Except Err (List Char)
  | 0, _, s => .ok s
  | fuel + 1, results, s =>
    match splitMarker s with
    | none => .ok s
    | some (pre, i, rest) =>
      match lookupResult results i with
      | .trusted t =>
        match replaceTrustedF fuel results rest with
        | .error e => .error e
        | .ok r => .ok (pre ++ t.inner.data ++ r)
      | _ => .error .untrustedMarkup

/-- Global trusted replacement of markers, as used for the inner markup
of a leaf element: every marker must resolve to a TrustedHTML value,
otherwise the callback throws (modelled as `Err.untrustedMarkup`).
On success the trusted inner string is substituted. -/
def replaceTrusted (results : List JSVal) (s : List Char) :
    Except Err (List Char) :=
  replaceTrustedF s.length results s

/-- Fueled worker for `markerIndices`. -/
def markerIndicesF : Nat → List Char → List Nat
  | 0, _ => []
  | fuel + 1, s =>
    match splitMarker s with
    | none => []
    | some (_, i, rest) => i :: markerIndicesF fuel rest

/-- The indices captured by the successive marker matches of the global
scan, left to right. -/
def markerIndices (s : List Char) : List Nat :=
  markerIndicesF s.length s

/-! ## HTML escaping (`TrustedHTML.escape`)

The source applies six global single-character replacements in a fixed
order: ampersand, less-than, greater-than, double quote, single quote,
NUL.  A global regex replacement whose pattern is a single character is
exactly a character-wise expansion, which `escPass` performs. -/

/-- One global replacement pass `s.replace(/c/g, rep)` for a
single-character pattern. -/
def escPass (c : Char) (rep : List Char) : List Char → List Char
  | [] => []
  | d :: ds => (if d = c then rep else [d]) ++ escPass c rep ds

def ampRep : List Char := ['&', 'a', 'm', 'p', ';']
def ltRep : List Char := ['&', 'l', 't', ';']
def gtRep : List Char := ['&', 'g', 't', ';']
def quotRep : List Char := ['&', 'q', 'u', 'o', 't', ';']
def aposRep : List Char := ['&', '#', '3', '9', ';']
def nulRep : List Char := ['&', '#', '0', ';']

/-- The single-quote character (code point 39). -/
def quoteChar : Char := Char.ofNat 39

/-- The NUL character. -/
def nulChar : Char := Char.ofNat 0

/-- The six replacement passes of `TrustedHTML.escape`, in source order:
ampersand first, then the angle brackets, the quotes, and NUL. -/
def escapeChain (s : List Char) : List Char :=
  escPass nulChar nulRep
    (escPass quoteChar aposRep
      (escPass '"' quotRep
        (escPass '>' gtRep
          (escPass '<' ltRep
            (escPass '&' ampRep s)))))

/-- Models the static `TrustedHTML.escape`. -/
def TrustedHTML.escape (html : String) : TrustedHTML :=
  ⟨String.mk (escapeChain html.data)⟩

/-- Character-wise description of the composite escape: because the
ampersand pass runs first and later passes never touch the characters the
earlier expansions introduce, the chain acts independently on each input
character. -/
def escMap (c : Char) : List Char :=
  if c = '&' then ampRep
  else if c = '<' then ltRep
  else if c = '>' then gtRep
  else if c = '"' then quotRep
  else if c = quoteChar then aposRep
  else if c = nulChar then nulRep
  else [c]

def escAll : List Char → List Char
  | [] => []
  | c :: cs => escMap c ++ escAll cs

/-- Decoder for the six escape sequences the component emits (also the
entity decoding the modelled fragment parser applies to text and
attribute values).  The six sequences are mutually non-prefixing, so the
greedy first-match decode is unambiguous. -/
def decodeEsc : List Char → List Char
  | '&' :: 'a' :: 'm' :: 'p' :: ';' :: rest => '&' :: decodeEsc rest
  | '&' :: 'l' :: 't' :: ';' :: rest => '<' :: decodeEsc rest
  | '&' :: 'g' :: 't' :: ';' :: rest => '>' :: decodeEsc rest
  | '&' :: 'q' :: 'u' :: 'o' :: 't' :: ';' :: rest => '"' :: decodeEsc rest
  | '&' :: '#' :: '3' :: '9' :: ';' :: rest => quoteChar :: decodeEsc rest
  | '&' :: '#' :: '0' :: ';' :: rest => nulChar :: decodeEsc rest
  | c :: rest => c :: decodeEsc rest
  | [] => []

/-- Every occurrence of an ampersand starts one of the six escape
sequences: the well-formedness half of the "no literal special character
outside an escape sequence" property. -/
def wellEscaped : List Char → Bool
  | '&' :: 'a' :: 'm' :: 'p' :: ';' :: rest => wellEscaped rest
  | '&' :: 'l' :: 't' :: ';' :: rest => wellEscaped rest
  | '&' :: 'g' :: 't' :: ';' :: rest => wellEscaped rest
  | '&' :: 'q' :: 'u' :: 'o' :: 't' :: ';' :: rest => wellEscaped rest
  | '&' :: '#' :: '3' :: '9' :: ';' :: rest => wellEscaped rest
  | '&' :: '#' :: '0' :: ';' :: rest => wellEscaped rest
  | '&' :: _ => false
  | _ :: rest => wellEscaped rest
  | [] => true

/-! ## The DOM fragment tree

Modelled from the spec: the host DOM (tree representation, fragment
parser and serializer) is an external collaborator of this component
(spec sections 1, 2 and 6), consumed through `parseFragment` /
`serialize` capabilities.  We model the tree as element and text nodes,
the parser as a conventional recursive-descent HTML fragment parser
(entity decoding restricted to the six sequences this component emits),
and the serializer as the standard innerHTML serialization (ampersand
and angle brackets escaped in text, ampersand and double quote escaped in
attribute values). -/

mutual
inductive Node where
  | text (s : String)
  | element (tag : String) (attrs : List (String × String)) (children : Forest)
inductive Forest where
  | nil
  | cons (n : Node) (ns : Forest)
end

mutual
/-- Number of constructors in a node: the fuel measure of resolution. -/
def sizeN : Node → Nat
  | .text _ => 1
  | .element _ _ cs => 1 + sizeF cs
def sizeF : Forest → Nat
  | .nil => 1
  | .cons n ns => 1 + sizeN n + sizeF ns
end

/-- Text-mode serialization escape, applied when innerHTML reads a text
node back as markup. -/
def serTextMap (c : Char) : List Char :=
  if c = '&' then ampRep
  else if c = '<' then ltRep
  else if c = '>' then gtRep
  else [c]

def serText : List Char → List Char
  | [] => []
  | c :: cs => serTextMap c ++ serText cs

/-- Attribute-value serialization escape. -/
def serAttrMap (c : Char) : List Char :=
  if c = '&' then ampRep
  else if c = '"' then quotRep
  else [c]

def serAttrVal : List Char → List Char
  | [] => []
  | c :: cs => serAttrMap c ++ serAttrVal cs

def serAttrs : List (String × String) → String
  | [] => ""
  | (n, v) :: rest => " " ++ n ++ "=" ++ "\"" ++ String.mk (serAttrVal v.data) ++ "\"" ++ serAttrs rest

mutual
/-- Serialize one node to markup. -/
def serNode : Node → String
  | .text s => String.mk (serText s.data)
  | .element tag attrs cs =>
    "<" ++ tag ++ serAttrs attrs ++ ">" ++ serForest cs ++ "</" ++ tag ++ ">"
/-- Serialize a forest of nodes (the innerHTML read of their parent). -/
def serForest : Forest → String
  | .nil => ""
  | .cons n ns => serNode n ++ serForest ns
end

def isTagChar (c : Char) : Bool :=
  c.isAlpha || c.isDigit

def isAttrNameChar (c : Char) : Bool :=
  !(c.isWhitespace || c = '=' || c = '>' || c = '/' || c = '"')

/-- Fueled attribute scanner of the modelled fragment parser: returns the
attribute list and the input remaining after the closing angle bracket of
the open tag. -/
def parseAttrsF : Nat → List Char → List (String × String) × List Char
  | 0, s => ([], s)
  | fuel + 1, s =>
    match s.dropWhile Char.isWhitespace with
    | [] => ([], [])
    | '>' :: rest => ([], rest)
    | '/' :: rest => parseAttrsF fuel rest
    | c :: cs =>
      let name := (c :: cs).takeWhile isAttrNameChar
      let s2 := (c :: cs).dropWhile isAttrNameChar
      if name.isEmpty then parseAttrsF fuel cs
      else
        match s2.dropWhile Char.isWhitespace with
        | '=' :: s4 =>
          match s4.dropWhile Char.isWhitespace with
          | '"' :: s6 =>
            let v := s6.takeWhile (fun d => !(d = '"'))
            let s7 := (s6.dropWhile (fun d => !(d = '"'))).drop 1
            let (attrs, tail) := parseAttrsF fuel s7
            ((String.mk name, String.mk (decodeEsc v)) :: attrs, tail)
          | s5 =>
            let v := s5.takeWhile (fun d => !(d.isWhitespace || d = '>'))
            let s6 := s5.dropWhile (fun d => !(d.isWhitespace || d = '>'))
            let (attrs, tail) := parseAttrsF fuel s6
            ((String.mk name, String.mk (decodeEsc v)) :: attrs, tail)
        | s3 =>
          let (attrs, tail) := parseAttrsF fuel s3
          ((String.mk name, "") :: attrs, tail)

/-- Fueled node scanner of the modelled fragment parser: parses sibling
nodes until the end of input or a closing tag matching `stop`, returning
the nodes and the remaining input. Unmatched closing tags are ignored,
and an angle bracket not opening a tag is literal text, as in HTML. -/
def parseNodesF : Nat → Option String → List Char → Forest × List Char
  | 0, _, s => (.nil, s)
  | _ + 1, _, [] => (.nil, [])
  | fuel + 1, stop, '<' :: rest =>
    match rest with
    | '/' :: rest2 =>
      let name := rest2.takeWhile isTagChar
      let rest3 := ((rest2.dropWhile isTagChar).dropWhile (fun d => !(d = '>'))).drop 1
      if stop == some (String.mk name) then (.nil, rest3)
      else parseNodesF fuel stop rest3
    | c :: _ =>
      if c.isAlpha then
        let tname := rest.takeWhile isTagChar
        let afterName := rest.dropWhile isTagChar
        let (attrs, afterAttrs) := parseAttrsF fuel afterName
        let (children, afterChildren) := parseNodesF fuel (some (String.mk tname)) afterAttrs
        let (siblings, tail) := parseNodesF fuel stop afterChildren
        (.cons (Node.element (String.mk tname) attrs children) siblings, tail)
      else
        let txt := rest.takeWhile (fun d => !(d = '<'))
        let rest2 := rest.dropWhile (fun d => !(d = '<'))
        let (siblings, tail) := parseNodesF fuel stop rest2
        (.cons (Node.text (String.mk (decodeEsc ('<' :: txt)))) siblings, tail)
    | [] => (.cons (Node.text "<") .nil, [])
  | fuel + 1, stop, c :: cs =>
    let txt := (c :: cs).takeWhile (fun d => !(d = '<'))
    let rest := (c :: cs).dropWhile (fun d => !(d = '<'))
    let (siblings, tail) := parseNodesF fuel stop rest
    (.cons (Node.text (String.mk (decodeEsc txt))) siblings, tail)

/-- Modelled from the spec: the external `parseFragment` capability that
turns markup into a node forest without executing scripts. -/
def parseFragment (s : String) : Forest :=
  (parseNodesF (4 * s.length + 16) none s.data).1

/-! ## The template interpolation engine -/

/-- Attribute processing of `processNode_`: if the attribute value
matches the (non-global, unanchored) marker pattern, `setAttribute`
overwrites the whole value with the string coercion of the expression
result selected by the first marker; no trust check is applied. -/
def substAttr (results : List JSVal) (a : String × String) : String × String :=
  match splitMarker a.2.data with
  | none => a
  | some (_, i, _) => (a.1, (lookupResult results i).toStr)

/-- The node-iterator resolution loop: visits each node in document
order, applying `processNode_` (attribute substitution, the trusted
leaf-markup substitution, and raw text substitution), and continues into
the children a leaf substitution freshly inserts.  Recursion is
structural on the fuel so the kernel can evaluate it; the source loop
simply diverges on the pathological self-feeding templates that exhaust
any fuel, and `resolutionExhausted` marks that case. -/
def resolveForest : Nat → List JSVal → Forest → Except Err Forest
  | _, _, .nil => .ok .nil
  | 0, _, .cons _ _ => .error .resolutionExhausted
  | fuel + 1, results, .cons (.text s) ns =>
    match resolveForest fuel results ns with
    | .error e => .error e
    | .ok ns2 => .ok (.cons (.text (String.mk (replaceRaw results s.data))) ns2)
  | fuel + 1, results, .cons (.element tag attrs cs) ns =>
    let attrs2 := attrs.map (substAttr results)
    match cs with
    | .cons (.text t) .nil =>
      if containsMarker (serText t.data) then
        match replaceTrusted results (serText t.data) with
        | .error e => .error e
        | .ok inner2 =>
          match resolveForest fuel results (parseFragment (String.mk inner2)) with
          | .error e => .error e
          | .ok cs2 =>
            match resolveForest fuel results ns with
            | .error e => .error e
            | .ok ns2 => .ok (.cons (.element tag attrs2 cs2) ns2)
      else
        match resolveForest fuel results cs with
        | .error e => .error e
        | .ok cs2 =>
          match resolveForest fuel results ns with
          | .error e => .error e
          | .ok ns2 => .ok (.cons (.element tag attrs2 cs2) ns2)
    | _ =>
      match resolveForest fuel results cs with
      | .error e => .error e
      | .ok cs2 =>
        match resolveForest fuel results ns with
        | .error e => .error e
        | .ok ns2 => .ok (.cons (.element tag attrs2 cs2) ns2)

/-- The marker string appended after part `i` during the join phase. -/
def joinParts : List String → Nat → Nat → String
  | [], _, _ => ""
  | p :: ps, i, n =>
    p ++ (if i < n then "$$$" ++ Nat.repr i ++ "$$$" else "") ++ joinParts ps (i + 1) n

/-- Fuel budget for the resolution loop: generous enough that only the
genuinely divergent templates exhaust it. -/
def resolutionFuel (doc : Node) (results : List JSVal) : Nat :=
  sizeN doc + 8 * ((results.map (fun r => r.toStr.length)).sum + 4)

/-- Models `interpolate_`: join the template parts with markers, parse
the fragment wrapped in a body element, resolve every node, and
serialize the body contents back to markup. -/
def interpolate_ (parts : List String) (results : List JSVal) : Except Err String :=
  let replaced := joinParts parts 0 results.length
  let frag := parseFragment replaced
  let doc : Node := .element "html" []
    (.cons (.element "head" [] .nil) (.cons (.element "body" [] frag) .nil))
  match resolveForest (resolutionFuel doc results) results (.cons doc .nil) with
  | .error e => .error e
  | .ok (.cons (.element _ _ (.cons _ (.cons (.element _ _ bodyChildren) .nil))) .nil) =>
    .ok (serForest bodyChildren)
  | .ok _ => .ok ""

/-- Models the static `TrustedHTML.fromTemplateLiteral`. -/
def fromTemplateLiteral (parts : List String) (results : List JSVal) :
    Except Err TrustedHTML :=
  match interpolate_ parts results with
  | .error e => .error e
  | .ok s => .ok ⟨s⟩

/-! ## Configuration: sanitizer registry and the unsafe-create gate

The module-level mutable state (`sanitizers_`, `allowUnsafelyCreate_`)
becomes an explicit record.  The source freezes both objects together in
`freezeConfiguration`; the two flags model `Object.isFrozen` of each.
Assigning to a property of a frozen object throws a `TypeError` in strict
mode (the source is an ES module, hence strict), modelled as
`Err.registryFrozen` with the state returned unchanged. -/

structure Config where
  sanitizers : List (String × (String → String))
  allowed : Bool
  sanitizersFrozen : Bool
  gateFrozen : Bool

/-- The state at module initialization: no sanitizers, the gate open
(`allowUnsafelyCreate_ = { allowed: true }`), nothing frozen. -/
def initialConfig : Config :=
  ⟨[], true, false, false⟩

def DEFAULT_SANITIZER : String := "default"

/-- The own-property part of the read `sanitizers_[id]`: the entries
`registerSanitizer` created on the plain object literal. -/
def Config.ownSanitizer (cfg : Config) (id : String) : Option (String → String) :=
  List.lookup id cfg.sanitizers

/-- The ids for which the property read `sanitizers_[id]` falls through
to the prototype chain of the plain object literal `sanitizers_ = {}`:
the own property names of `Object.prototype`.  Every one of them reads
as a truthy value (a function, or the `Object.prototype` object itself
for the `__proto__` accessor), so the falsiness guard
`if (!sanitizers_[optSanitizerId])` does not throw for them. -/
def objectProtoKeys : List String :=
  ["constructor", "hasOwnProperty", "isPrototypeOf", "propertyIsEnumerable",
    "toLocaleString", "toString", "valueOf",
    "__defineGetter__", "__defineSetter__", "__lookupGetter__", "__lookupSetter__",
    "__proto__"]

/-- Models the call `sanitizers_[id](html)` when the property read fell
through to `Object.prototype` (so `this` is the sanitizers object and
`html` is the single argument).  The returned string is the text the
resulting TrustedHTML coerces to; `none` marks the members whose
invocation itself throws a TypeError: `__proto__` reads as the
non-callable `Object.prototype` object, and `__defineGetter__` /
`__defineSetter__` reject the missing accessor-function argument.
Member behaviour: `constructor` is `Object`, whose string-wrapper result
coerces back to `html`; `hasOwnProperty` and `propertyIsEnumerable` test
an own (always enumerable, assignment-created) key named `html`;
`isPrototypeOf` is false on a primitive argument; `toString`,
`toLocaleString` and `valueOf` coerce the plain registry object to
"[object Object]"; the two lookup members return undefined for data
properties.  The model is exact provided no sanitizer is registered
under the id "toString" (which the object coercions would then call) and
`html` does not itself name an `Object.prototype` accessor (for which
`__lookupGetter__` would return a host-formatted function). -/
def objectProtoCall (sanitizers : List (String × (String → String)))
    (id html : String) : Option String :=
  if id = "constructor" then some html
  else if id = "hasOwnProperty" then
    some (if (List.lookup html sanitizers).isSome then "true" else "false")
  else if id = "isPrototypeOf" then some "false"
  else if id = "propertyIsEnumerable" then
    some (if (List.lookup html sanitizers).isSome then "true" else "false")
  else if id = "toLocaleString" then some "[object Object]"
  else if id = "toString" then some "[object Object]"
  else if id = "valueOf" then some "[object Object]"
  else if id = "__lookupGetter__" then some "undefined"
  else if id = "__lookupSetter__" then some "undefined"
  else none

/-- Models the static `TrustedHTML.sanitize`.  The guard is a plain
property read on the object literal, so an id inherited from
`Object.prototype` passes it: the inherited member is invoked instead of
the unknown-sanitizer TypeError being thrown. -/
def sanitize (cfg : Config) (html : String) (optSanitizerId : Option String) :
    Except Err TrustedHTML :=
  let sid := optSanitizerId.getD DEFAULT_SANITIZER
  match cfg.ownSanitizer sid with
  | some f => .ok ⟨f html⟩
  | none =>
    if sid ∈ objectProtoKeys then
      match objectProtoCall cfg.sanitizers sid html with
      | some out => .ok ⟨out⟩
      | none => .error .protoCallError
    else .error .unknownSanitizer

/-- Property write on the sanitizers object: overwrite in place or add. -/
def upsertSanitizer :
    List (String × (String → String)) → String → (String → String) →
      List (String × (String → String))
  | [], id, f => [(id, f)]
  | (k, g) :: rest, id, f =>
    if k = id then (k, f) :: rest else (k, g) :: upsertSanitizer rest id f

/-- Models the static `TrustedHTML.registerSanitizer`. -/
def registerSanitizer (cfg : Config) (sanitizer : String → String)
    (optSanitizerId : Option String) : Config × Option Err :=
  if cfg.sanitizersFrozen then (cfg, some .registryFrozen)
  else
    ({ cfg with
        sanitizers := upsertSanitizer cfg.sanitizers (optSanitizerId.getD DEFAULT_SANITIZER)
          sanitizer },
      none)

/-- Models the static `TrustedHTML.unsafelyCreate` (the raw-bypass
constructor guarded by the gate). -/
def createUnsafely (cfg : Config) (html : String) : Except Err TrustedHTML :=
  if cfg.allowed then .ok ⟨html⟩ else .error .gateClosed

/-- Models the static setter `TrustedHTML.allowUnsafelyCreate = value`. -/
def setAllowCreateUnsafely (cfg : Config) (value : Bool) : Config × Option Err :=
  if cfg.gateFrozen then (cfg, some .registryFrozen)
  else ({ cfg with allowed := value }, none)

/-- Models the static getter `TrustedHTML.allowUnsafelyCreate`. -/
def getAllowCreateUnsafely (cfg : Config) : Bool :=
  cfg.allowed

/-- Models the static `TrustedHTML.freezeConfiguration`: freezes the
sanitizer map and the gate object together. -/
def freezeConfiguration (cfg : Config) : Config :=
  { cfg with sanitizersFrozen := true, gateFrozen := true }

mutual
/-- No marker occurs anywhere in a node: not in an attribute value, not
in the serialized inner markup of a text child. -/
def noMarkerNode : Node → Bool
  | .text s => !containsMarker (serText s.data)
  | .element _ attrs cs =>
    attrs.all (fun a => !containsMarker a.2.data) && noMarkerForest cs
def noMarkerForest : Forest → Bool
  | .nil => true
  | .cons n ns => noMarkerNode n && noMarkerForest ns
end

/-- Plain concatenation of the literal segments. -/
def concatParts : List String → String
  | [] => ""
  | p :: ps => p ++ concatParts ps


/-! ## Lemmas: the marker scan and the replacement loops -/

theorem matchMarkerAt_shrinks {s : List Char} {i : Nat} {rest : List Char}
    (h : matchMarkerAt s = some (i, rest)) : rest.length + 7 ≤ s.length := by
  unfold matchMarkerAt at h
  split at h
  case h_2 => exact absurd h (by simp)
  case h_1 s3 =>
    split at h
    · exact absurd h (by simp)
    case isFalse hds =>
      split at h
      case h_2 => exact absurd h (by simp)
      case h_1 r heq =>
        simp only [Option.some.injEq, Prod.mk.injEq] at h
        obtain ⟨_, hrest⟩ := h
        subst hrest
        have hlen : (s3.takeWhile Char.isDigit).length + (s3.dropWhile Char.isDigit).length
            = s3.length := by
          conv_rhs => rw [← List.takeWhile_append_dropWhile (p := Char.isDigit) (l := s3)]
          rw [List.length_append]
        have hne : 1 ≤ (s3.takeWhile Char.isDigit).length := by
          cases hT : s3.takeWhile Char.isDigit with
          | nil => rw [hT] at hds; simp at hds
          | cons a as => simp [hT]
        rw [heq] at hlen
        simp only [List.length_cons] at hlen ⊢
        omega

theorem splitMarker_shrinks {s pre : List Char} {i : Nat} {rest : List Char}
    (h : splitMarker s = some (pre, i, rest)) :
    rest.length + 7 ≤ s.length ∧ pre.length + rest.length + 7 ≤ s.length := by
  induction s generalizing pre i rest with
  | nil => simp [splitMarker] at h
  | cons c cs ih =>
    unfold splitMarker at h
    split at h
    case h_1 j r hm =>
      simp only [Option.some.injEq, Prod.mk.injEq] at h
      obtain ⟨hpre, hi, hrest⟩ := h
      have := matchMarkerAt_shrinks hm
      subst hpre; subst hrest
      constructor <;> simpa using this
    case h_2 hm =>
      split at h
      case h_1 p j r hs =>
        simp only [Option.some.injEq, Prod.mk.injEq] at h
        obtain ⟨hpre, hi, hrest⟩ := h
        subst hpre; subst hi; subst hrest
        have := ih hs
        simp only [List.length_cons]
        omega
      case h_2 => exact absurd h (by simp)

theorem splitMarker_rest_lt {s pre : List Char} {i : Nat} {rest : List Char}
    (h : splitMarker s = some (pre, i, rest)) : rest.length < s.length := by
  have := (splitMarker_shrinks h).1
  omega

theorem replaceRawF_stable (results : List JSVal) :
    ∀ fuel s, s.length ≤ fuel → replaceRawF fuel results s = replaceRaw results s := by
  intro fuel
  induction fuel using Nat.strong_induction_on with
  | _ fuel ih =>
    intro s hs
    match fuel with
    | 0 =>
      have : s = [] := List.eq_nil_of_length_eq_zero (Nat.le_zero.mp hs)
      subst this
      rfl
    | f + 1 =>
      show replaceRawF (f + 1) results s = replaceRawF s.length results s
      cases h : splitMarker s with
      | none =>
        cases s with
        | nil => rfl
        | cons c cs => simp [replaceRawF, h]
      | some v =>
        obtain ⟨pre, i, rest⟩ := v
        have hlen := splitMarker_shrinks h
        obtain ⟨m, hm⟩ : ∃ m, s.length = m + 1 := by
          cases hsl : s.length with
          | zero => omega
          | succ m => exact ⟨m, rfl⟩
        rw [hm]
        simp only [replaceRawF, h]
        have h1 : replaceRawF f results rest = replaceRaw results rest :=
          ih f (by omega) rest (by omega)
        have h2 : replaceRawF m results rest = replaceRaw results rest :=
          ih m (by omega) rest (by omega)
        rw [h1, h2]

theorem replaceRaw_eq (results : List JSVal) (s : List Char) :
    replaceRaw results s =
      match splitMarker s with
      | none => s
      | some (pre, i, rest) =>
        pre ++ (lookupResult results i).toStr.data ++ replaceRaw results rest := by
  cases h : splitMarker s with
  | none =>
    cases s with
    | nil => rfl
    | cons c cs => show replaceRawF _ _ _ = _; simp [replaceRawF, h]
  | some v =>
    obtain ⟨pre, i, rest⟩ := v
    have hlen := splitMarker_shrinks h
    obtain ⟨m, hm⟩ : ∃ m, s.length = m + 1 := by
      cases hsl : s.length with
      | zero => omega
      | succ m => exact ⟨m, rfl⟩
    show replaceRawF s.length _ _ = _
    rw [hm]
    simp only [replaceRawF, h]
    rw [replaceRawF_stable results m rest (by omega)]

theorem replaceTrustedF_stable (results : List JSVal) :
    ∀ fuel s, s.length ≤ fuel → replaceTrustedF fuel results s = replaceTrusted results s := by
  intro fuel
  induction fuel using Nat.strong_induction_on with
  | _ fuel ih =>
    intro s hs
    match fuel with
    | 0 =>
      have : s = [] := List.eq_nil_of_length_eq_zero (Nat.le_zero.mp hs)
      subst this
      rfl
    | f + 1 =>
      show replaceTrustedF (f + 1) results s = replaceTrustedF s.length results s
      cases h : splitMarker s with
      | none =>
        cases s with
        | nil => rfl
        | cons c cs => simp [replaceTrustedF, h]
      | some v =>
        obtain ⟨pre, i, rest⟩ := v
        have hlen := splitMarker_shrinks h
        obtain ⟨m, hm⟩ : ∃ m, s.length = m + 1 := by
          cases hsl : s.length with
          | zero => omega
          | succ m => exact ⟨m, rfl⟩
        rw [hm]
        simp only [replaceTrustedF, h]
        have h1 : replaceTrustedF f results rest = replaceTrusted results rest :=
          ih f (by omega) rest (by omega)
        have h2 : replaceTrustedF m results rest = replaceTrusted results rest :=
          ih m (by omega) rest (by omega)
        rw [h1, h2]

theorem replaceTrusted_eq (results : List JSVal) (s : List Char) :
    replaceTrusted results s =
      match splitMarker s with
      | none => .ok s
      | some (pre, i, rest) =>
        match lookupResult results i with
        | .trusted t =>
          match replaceTrusted results rest with
          | .error e => .error e
          | .ok r => .ok (pre ++ t.inner.data ++ r)
        | _ => .error .untrustedMarkup := by
  cases h : splitMarker s with
  | none =>
    cases s with
    | nil => rfl
    | cons c cs => show replaceTrustedF _ _ _ = _; simp [replaceTrustedF, h]
  | some v =>
    obtain ⟨pre, i, rest⟩ := v
    have hlen := splitMarker_shrinks h
    obtain ⟨m, hm⟩ : ∃ m, s.length = m + 1 := by
      cases hsl : s.length with
      | zero => omega
      | succ m => exact ⟨m, rfl⟩
    show replaceTrustedF s.length _ _ = _
    rw [hm]
    simp only [replaceTrustedF, h]
    rw [replaceTrustedF_stable results m rest (by omega)]

theorem markerIndicesF_stable :
    ∀ fuel s, s.length ≤ fuel → markerIndicesF fuel s = markerIndices s := by
  intro fuel
  induction fuel using Nat.strong_induction_on with
  | _ fuel ih =>
    intro s hs
    match fuel with
    | 0 =>
      have : s = [] := List.eq_nil_of_length_eq_zero (Nat.le_zero.mp hs)
      subst this
      rfl
    | f + 1 =>
      show markerIndicesF (f + 1) s = markerIndicesF s.length s
      cases h : splitMarker s with
      | none =>
        cases s with
        | nil => rfl
        | cons c cs => simp [markerIndicesF, h]
      | some v =>
        obtain ⟨pre, i, rest⟩ := v
        have hlen := splitMarker_shrinks h
        obtain ⟨m, hm⟩ : ∃ m, s.length = m + 1 := by
          cases hsl : s.length with
          | zero => omega
          | succ m => exact ⟨m, rfl⟩
        rw [hm]
        simp only [markerIndicesF, h]
        rw [ih f (by omega) rest (by omega), ih m (by omega) rest (by omega)]

theorem markerIndices_eq (s : List Char) :
    markerIndices s =
      match splitMarker s with
      | none => []
      | some (_, i, rest) => i :: markerIndices rest := by
  cases h : splitMarker s with
  | none =>
    cases s with
    | nil => rfl
    | cons c cs => show markerIndicesF _ _ = _; simp [markerIndicesF, h]
  | some v =>
    obtain ⟨pre, i, rest⟩ := v
    have hlen := splitMarker_shrinks h
    obtain ⟨m, hm⟩ : ∃ m, s.length = m + 1 := by
      cases hsl : s.length with
      | zero => omega
      | succ m => exact ⟨m, rfl⟩
    show markerIndicesF s.length _ = _
    rw [hm]
    simp only [markerIndicesF, h]
    rw [markerIndicesF_stable m rest (by omega)]

/-! ## Claims about the configuration surface -/

/-- C4: for every string s, unsafelyCreate(s) fails with GateClosedError
whenever the unsafe-create gate is closed, and returns a TrustedValue
whose toText() equals s exactly when the gate is open. -/
theorem C4_gate_behavior : ∀ (cfg : Config) (s : String),
    (cfg.allowed = false → createUnsafely cfg s = .error .gateClosed)
    ∧ (cfg.allowed = true → ∃ v, createUnsafely cfg s = .ok v ∧ v.toText = s) := by
  intro cfg s
  constructor
  · intro h
    simp [createUnsafely, h]
  · intro h
    exact ⟨⟨s⟩, by simp [createUnsafely, h], rfl⟩

theorem C4_gate_behavior_witness :
    (createUnsafely ⟨[], false, false, false⟩ "x" = .error .gateClosed)
    ∧ (∃ v, createUnsafely initialConfig "abc" = .ok v ∧ v.toText = "abc") :=
  ⟨(C4_gate_behavior ⟨[], false, false, false⟩ "x").1 rfl,
    (C4_gate_behavior initialConfig "abc").2 rfl⟩

/-- C5: after freezeConfiguration(), every register call and every
setter write to the gate fails with RegistryFrozenError and leaves the
configuration unchanged; freezing a second time is a no-op, not an
error. -/
theorem C5_freeze_behavior :
    ∀ (cfg : Config) (fn : String → String) (id : Option String) (v : Bool),
    registerSanitizer (freezeConfiguration cfg) fn id
        = (freezeConfiguration cfg, some .registryFrozen)
    ∧ setAllowCreateUnsafely (freezeConfiguration cfg) v
        = (freezeConfiguration cfg, some .registryFrozen)
    ∧ freezeConfiguration (freezeConfiguration cfg) = freezeConfiguration cfg
    ∧ (∀ cfg2 : Config, cfg2.sanitizersFrozen = true → cfg2.gateFrozen = true →
        registerSanitizer cfg2 fn id = (cfg2, some .registryFrozen)
        ∧ setAllowCreateUnsafely cfg2 v = (cfg2, some .registryFrozen)) := by
  intro cfg fn id v
  refine ⟨?_, ?_, ?_, ?_⟩
  · simp [registerSanitizer, freezeConfiguration]
  · simp [setAllowCreateUnsafely, freezeConfiguration]
  · rfl
  · intro cfg2 h1 h2
    exact ⟨by simp [registerSanitizer, h1], by simp [setAllowCreateUnsafely, h2]⟩

theorem C5_freeze_behavior_witness :
    registerSanitizer ⟨[], true, true, true⟩ (fun s => s) none
        = (⟨[], true, true, true⟩, some .registryFrozen)
    ∧ setAllowCreateUnsafely ⟨[], true, true, true⟩ false
        = (⟨[], true, true, true⟩, some .registryFrozen) :=
  (C5_freeze_behavior ⟨[], true, true, true⟩ (fun s => s) none false).2.2.2
    ⟨[], true, true, true⟩ rfl rfl

/-- C7 as stated is false on this code: the guard is a property read on
a plain object literal, so an unregistered id that names an inherited
`Object.prototype` member (here "toString") passes the falsiness check
and the inherited member is called — no UnknownSanitizerError is thrown,
and the result wraps "[object Object]". -/
theorem C7_sanitize_counterexample :
    initialConfig.ownSanitizer "toString" = none
    ∧ sanitize initialConfig "x" (some "toString") = .ok ⟨"[object Object]"⟩
    ∧ sanitize initialConfig "x" (some "toString") ≠ .error .unknownSanitizer :=
  ⟨rfl, rfl, fun h => by rw [show sanitize initialConfig "x" (some "toString")
      = .ok ⟨"[object Object]"⟩ from rfl] at h; exact Except.noConfusion h⟩

/-- C7 (amended): sanitize(s, id) fails with UnknownSanitizerError when
id is neither registered in the Sanitizer Registry nor an own property
name of Object.prototype; for a registered id it returns a TrustedValue
whose content is the registered sanitizer applied to s; for an
unregistered id inherited from Object.prototype the guard passes and the
inherited member is invoked, so no UnknownSanitizerError is raised; when
the ID argument is omitted, the ID "default" is used. -/
theorem C7_sanitize_behavior : ∀ (cfg : Config) (s : String) (sid : String),
    (cfg.ownSanitizer sid = none → sid ∉ objectProtoKeys →
      sanitize cfg s (some sid) = .error .unknownSanitizer)
    ∧ (∀ f, cfg.ownSanitizer sid = some f → sanitize cfg s (some sid) = .ok ⟨f s⟩)
    ∧ (cfg.ownSanitizer sid = none → sid ∈ objectProtoKeys →
        sanitize cfg s (some sid) ≠ .error .unknownSanitizer)
    ∧ sanitize cfg s none = sanitize cfg s (some DEFAULT_SANITIZER) := by
  intro cfg s sid
  refine ⟨?_, ?_, ?_, rfl⟩
  · intro h hnp
    simp [sanitize, h, hnp]
  · intro f h
    simp [sanitize, h]
  · intro h hp
    cases hc : objectProtoCall cfg.sanitizers sid s with
    | some out => simp [sanitize, h, hp, hc]
    | none => simp [sanitize, h, hp, hc]

theorem C7_sanitize_behavior_witness :
    (sanitize ⟨[("default", fun x => x ++ "!")], true, false, false⟩ "x" (some "nope")
        = .error .unknownSanitizer)
    ∧ (sanitize ⟨[("default", fun x => x ++ "!")], true, false, false⟩ "x" (some "default")
        = .ok ⟨"x!"⟩)
    ∧ sanitize initialConfig "x" (some "toString") ≠ .error .unknownSanitizer :=
  ⟨(C7_sanitize_behavior ⟨[("default", fun x => x ++ "!")], true, false, false⟩ "x" "nope").1
      rfl (by decide),
    (C7_sanitize_behavior ⟨[("default", fun x => x ++ "!")], true, false, false⟩ "x"
      "default").2.1 (fun x => x ++ "!") rfl,
    (C7_sanitize_behavior initialConfig "x" "toString").2.2.1 rfl (by decide)⟩

/-- C10: at module initialization the unsafe-create gate is open: the
getter returns true and unsafelyCreate succeeds on every string,
returning a value whose toText() is that string. -/
theorem C10_initial_gate_open :
    getAllowCreateUnsafely initialConfig = true
    ∧ ∀ s : String, createUnsafely initialConfig s = .ok ⟨s⟩
        ∧ TrustedHTML.toText ⟨s⟩ = s :=
  ⟨rfl, fun _ => ⟨rfl, rfl⟩⟩

/-! ## Escape properties (C6) -/

theorem escPass_append (c : Char) (rep a b : List Char) :
    escPass c rep (a ++ b) = escPass c rep a ++ escPass c rep b := by
  induction a with
  | nil => rfl
  | cons d ds ih => simp [escPass, ih]

theorem escapeChain_append (a b : List Char) :
    escapeChain (a ++ b) = escapeChain a ++ escapeChain b := by
  simp [escapeChain, escPass_append]

theorem escMap_amp : escMap '&' = ampRep := rfl

theorem escMap_lt : escMap '<' = ltRep := rfl

theorem escMap_gt : escMap '>' = gtRep := rfl

theorem escMap_quot : escMap '"' = quotRep := rfl

theorem escMap_apos : escMap quoteChar = aposRep := rfl

theorem escMap_nul : escMap nulChar = nulRep := rfl

theorem escMap_other {c : Char} (h1 : c ≠ '&') (h2 : c ≠ '<') (h3 : c ≠ '>')
    (h4 : c ≠ '"') (h5 : c ≠ quoteChar) (h6 : c ≠ nulChar) : escMap c = [c] := by
  simp [escMap, h1, h2, h3, h4, h5, h6]

theorem escapeChain_single (c : Char) : escapeChain [c] = escMap c := by
  by_cases h1 : c = '&'
  · subst h1; rfl
  by_cases h2 : c = '<'
  · subst h2; rfl
  by_cases h3 : c = '>'
  · subst h3; rfl
  by_cases h4 : c = '"'
  · subst h4; rfl
  by_cases h5 : c = quoteChar
  · subst h5; rfl
  by_cases h6 : c = nulChar
  · subst h6; rfl
  rw [escMap_other h1 h2 h3 h4 h5 h6]
  simp [escapeChain, escPass, h1, h2, h3, h4, h5, h6]

theorem escapeChain_eq_escAll (s : List Char) : escapeChain s = escAll s := by
  induction s with
  | nil => rfl
  | cons c cs ih =>
    have h : escapeChain (c :: cs) = escapeChain [c] ++ escapeChain cs := by
      rw [← escapeChain_append]
      rfl
    rw [h, escapeChain_single, ih]
    rfl

set_option maxHeartbeats 1600000 in
theorem decodeEsc_cons_ne (c : Char) (rest : List Char) (hc : c ≠ '&') :
    decodeEsc (c :: rest) = c :: decodeEsc rest := by
  conv_lhs => rw [decodeEsc.eq_def]
  split
  all_goals first
  | rfl
  | · rename_i heq
      exact List.noConfusion heq
  | · rename_i heq
      injection heq with e1 e2
      first
      | exact absurd e1 hc
      | subst e1; subst e2; rfl

set_option maxHeartbeats 1600000 in
theorem wellEscaped_cons_ne (c : Char) (rest : List Char) (hc : c ≠ '&') :
    wellEscaped (c :: rest) = wellEscaped rest := by
  conv_lhs => rw [wellEscaped.eq_def]
  split
  all_goals first
  | rfl
  | · rename_i heq
      exact List.noConfusion heq
  | · rename_i heq
      injection heq with e1 e2
      first
      | exact absurd e1 hc
      | subst e1; subst e2; rfl

theorem decodeEsc_escAll (s : List Char) : decodeEsc (escAll s) = s := by
  induction s with
  | nil => rfl
  | cons c cs ih =>
    show decodeEsc (escMap c ++ escAll cs) = c :: cs
    by_cases h1 : c = '&'
    · subst h1
      rw [escMap_amp,
        show (ampRep ++ escAll cs : List Char) = '&' :: 'a' :: 'm' :: 'p' :: ';' :: escAll cs
          from rfl,
        show decodeEsc ('&' :: 'a' :: 'm' :: 'p' :: ';' :: escAll cs)
          = '&' :: decodeEsc (escAll cs) from rfl, ih]
    by_cases h2 : c = '<'
    · subst h2
      rw [escMap_lt,
        show (ltRep ++ escAll cs : List Char) = '&' :: 'l' :: 't' :: ';' :: escAll cs from rfl,
        show decodeEsc ('&' :: 'l' :: 't' :: ';' :: escAll cs)
          = '<' :: decodeEsc (escAll cs) from rfl, ih]
    by_cases h3 : c = '>'
    · subst h3
      rw [escMap_gt,
        show (gtRep ++ escAll cs : List Char) = '&' :: 'g' :: 't' :: ';' :: escAll cs from rfl,
        show decodeEsc ('&' :: 'g' :: 't' :: ';' :: escAll cs)
          = '>' :: decodeEsc (escAll cs) from rfl, ih]
    by_cases h4 : c = '"'
    · subst h4
      rw [escMap_quot,
        show (quotRep ++ escAll cs : List Char)
          = '&' :: 'q' :: 'u' :: 'o' :: 't' :: ';' :: escAll cs from rfl,
        show decodeEsc ('&' :: 'q' :: 'u' :: 'o' :: 't' :: ';' :: escAll cs)
          = '"' :: decodeEsc (escAll cs) from rfl, ih]
    by_cases h5 : c = quoteChar
    · subst h5
      rw [escMap_apos,
        show (aposRep ++ escAll cs : List Char)
          = '&' :: '#' :: '3' :: '9' :: ';' :: escAll cs from rfl,
        show decodeEsc ('&' :: '#' :: '3' :: '9' :: ';' :: escAll cs)
          = quoteChar :: decodeEsc (escAll cs) from rfl, ih]
    by_cases h6 : c = nulChar
    · subst h6
      rw [escMap_nul,
        show (nulRep ++ escAll cs : List Char)
          = '&' :: '#' :: '0' :: ';' :: escAll cs from rfl,
        show decodeEsc ('&' :: '#' :: '0' :: ';' :: escAll cs)
          = nulChar :: decodeEsc (escAll cs) from rfl, ih]
    rw [escMap_other h1 h2 h3 h4 h5 h6, List.cons_append, List.nil_append,
      decodeEsc_cons_ne c _ h1, ih]

theorem wellEscaped_escAll (s : List Char) : wellEscaped (escAll s) = true := by
  induction s with
  | nil => rfl
  | cons c cs ih =>
    show wellEscaped (escMap c ++ escAll cs) = true
    by_cases h1 : c = '&'
    · subst h1
      rw [escMap_amp,
        show (ampRep ++ escAll cs : List Char) = '&' :: 'a' :: 'm' :: 'p' :: ';' :: escAll cs
          from rfl,
        show wellEscaped ('&' :: 'a' :: 'm' :: 'p' :: ';' :: escAll cs)
          = wellEscaped (escAll cs) from rfl, ih]
    by_cases h2 : c = '<'
    · subst h2
      rw [escMap_lt,
        show (ltRep ++ escAll cs : List Char) = '&' :: 'l' :: 't' :: ';' :: escAll cs from rfl,
        show wellEscaped ('&' :: 'l' :: 't' :: ';' :: escAll cs)
          = wellEscaped (escAll cs) from rfl, ih]
    by_cases h3 : c = '>'
    · subst h3
      rw [escMap_gt,
        show (gtRep ++ escAll cs : List Char) = '&' :: 'g' :: 't' :: ';' :: escAll cs from rfl,
        show wellEscaped ('&' :: 'g' :: 't' :: ';' :: escAll cs)
          = wellEscaped (escAll cs) from rfl, ih]
    by_cases h4 : c = '"'
    · subst h4
      rw [escMap_quot,
        show (quotRep ++ escAll cs : List Char)
          = '&' :: 'q' :: 'u' :: 'o' :: 't' :: ';' :: escAll cs from rfl,
        show wellEscaped ('&' :: 'q' :: 'u' :: 'o' :: 't' :: ';' :: escAll cs)
          = wellEscaped (escAll cs) from rfl, ih]
    by_cases h5 : c = quoteChar
    · subst h5
      rw [escMap_apos,
        show (aposRep ++ escAll cs : List Char)
          = '&' :: '#' :: '3' :: '9' :: ';' :: escAll cs from rfl,
        show wellEscaped ('&' :: '#' :: '3' :: '9' :: ';' :: escAll cs)
          = wellEscaped (escAll cs) from rfl, ih]
    by_cases h6 : c = nulChar
    · subst h6
      rw [escMap_nul,
        show (nulRep ++ escAll cs : List Char)
          = '&' :: '#' :: '0' :: ';' :: escAll cs from rfl,
        show wellEscaped ('&' :: '#' :: '0' :: ';' :: escAll cs)
          = wellEscaped (escAll cs) from rfl, ih]
    rw [escMap_other h1 h2 h3 h4 h5 h6, List.cons_append, List.nil_append,
      wellEscaped_cons_ne c _ h1, ih]

theorem escAll_no_special (s : List Char) :
    (escAll s).all (fun d =>
      !(d = '<' || d = '>' || d = '"' || d = quoteChar || d = nulChar)) = true := by
  induction s with
  | nil => rfl
  | cons c cs ih =>
    show (escMap c ++ escAll cs).all _ = true
    rw [List.all_append]
    refine (Bool.and_eq_true _ _).mpr ⟨?_, ih⟩
    by_cases h1 : c = '&'
    · subst h1; rw [escMap_amp]; rfl
    by_cases h2 : c = '<'
    · subst h2; rw [escMap_lt]; rfl
    by_cases h3 : c = '>'
    · subst h3; rw [escMap_gt]; rfl
    by_cases h4 : c = '"'
    · subst h4; rw [escMap_quot]; rfl
    by_cases h5 : c = quoteChar
    · subst h5; rw [escMap_apos]; rfl
    by_cases h6 : c = nulChar
    · subst h6; rw [escMap_nul]; rfl
    rw [escMap_other h1 h2 h3 h4 h5 h6]
    simp [h2, h3, h4, h5, h6]

/-- C6: escape is total and deterministic; for every string s, the
escaped text contains none of the five non-ampersand special characters
at all, every ampersand begins one of the six fixed-order escape
sequences, and decoding the escape sequences recovers s exactly. -/
theorem C6_escape_props : ∀ s : String,
    ((TrustedHTML.escape s).toText.data.all (fun d =>
      !(d = '<' || d = '>' || d = '"' || d = quoteChar || d = nulChar)) = true)
    ∧ wellEscaped (TrustedHTML.escape s).toText.data = true
    ∧ decodeEsc (TrustedHTML.escape s).toText.data = s.data := by
  intro s
  show (escapeChain s.data).all _ = true
    ∧ wellEscaped (escapeChain s.data) = true
    ∧ decodeEsc (escapeChain s.data) = s.data
  rw [escapeChain_eq_escAll]
  exact ⟨escAll_no_special s.data, wellEscaped_escAll s.data, decodeEsc_escAll s.data⟩

/-! ## Marker scan lemmas -/

theorem takeWhile_digits_append (ds tl : List Char) (hdig : ds.all Char.isDigit = true) :
    (ds ++ '$' :: tl).takeWhile Char.isDigit = ds
    ∧ (ds ++ '$' :: tl).dropWhile Char.isDigit = '$' :: tl := by
  induction ds with
  | nil => simp [List.takeWhile, List.dropWhile]
  | cons d ds ih =>
    simp only [List.all_cons, Bool.and_eq_true] at hdig
    obtain ⟨hd, hds⟩ := hdig
    have := ih hds
    simp [List.takeWhile_cons, List.dropWhile_cons, hd, this.1, this.2]

theorem matchMarkerAt_marker (ds tl : List Char) (hne : ds ≠ [])
    (hdig : ds.all Char.isDigit = true) :
    matchMarkerAt ('$' :: '$' :: '$' :: (ds ++ '$' :: '$' :: '$' :: tl))
      = some (digitsToNat ds, tl) := by
  have h := takeWhile_digits_append ds ('$' :: '$' :: tl) hdig
  unfold matchMarkerAt
  simp only [h.1, h.2]
  rw [if_neg (by simpa [List.isEmpty_iff] using hne)]

theorem splitMarker_marker (ds tl : List Char) (hne : ds ≠ [])
    (hdig : ds.all Char.isDigit = true) :
    splitMarker ('$' :: '$' :: '$' :: (ds ++ '$' :: '$' :: '$' :: tl))
      = some ([], digitsToNat ds, tl) := by
  unfold splitMarker
  rw [matchMarkerAt_marker ds tl hne hdig]

theorem containsMarker_of_parts (A ds B : List Char) (hne : ds ≠ [])
    (hdig : ds.all Char.isDigit = true) :
    containsMarker (A ++ '$' :: '$' :: '$' :: (ds ++ '$' :: '$' :: '$' :: B)) = true := by
  induction A with
  | nil =>
    rw [List.nil_append]
    unfold containsMarker
    rw [splitMarker_marker ds B hne hdig]
    rfl
  | cons a A ih =>
    rw [List.cons_append]
    unfold containsMarker at ih ⊢
    show (match matchMarkerAt (a :: (A ++ _)) with
      | some (i, rest) => some ([], i, rest)
      | none =>
        match splitMarker (A ++ _) with
        | some (pre, i, rest) => some (a :: pre, i, rest)
        | none => none).isSome = true
    cases hm : matchMarkerAt (a :: (A ++ '$' :: '$' :: '$' :: (ds ++ '$' :: '$' :: '$' :: B))) with
    | some v => cases v; rfl
    | none =>
      cases hs : splitMarker (A ++ '$' :: '$' :: '$' :: (ds ++ '$' :: '$' :: '$' :: B)) with
      | some v =>
        obtain ⟨p, i, r⟩ := v
        rfl
      | none => rw [hs] at ih; exact absurd ih (by simp)

theorem matchMarkerAt_decomp {s : List Char} {i : Nat} {rest : List Char}
    (h : matchMarkerAt s = some (i, rest)) :
    ∃ ds, ds ≠ [] ∧ ds.all Char.isDigit = true ∧ i = digitsToNat ds ∧
      s = '$' :: '$' :: '$' :: (ds ++ '$' :: '$' :: '$' :: rest) := by
  unfold matchMarkerAt at h
  split at h
  case h_2 => exact absurd h (by simp)
  case h_1 s3 =>
    split at h
    · exact absurd h (by simp)
    case isFalse hds =>
      split at h
      case h_2 => exact absurd h (by simp)
      case h_1 r heq =>
        simp only [Option.some.injEq, Prod.mk.injEq] at h
        obtain ⟨hi, hrest⟩ := h
        subst hrest
        refine ⟨s3.takeWhile Char.isDigit, ?_, List.all_takeWhile, hi.symm, ?_⟩
        · intro hempty
          rw [hempty] at hds
          simp at hds
        · have hsplit := List.takeWhile_append_dropWhile (p := Char.isDigit) (l := s3)
          rw [heq] at hsplit
          rw [hsplit]

theorem splitMarker_decomp {s pre : List Char} {i : Nat} {rest : List Char}
    (h : splitMarker s = some (pre, i, rest)) :
    ∃ ds, ds ≠ [] ∧ ds.all Char.isDigit = true ∧ i = digitsToNat ds ∧
      s = pre ++ '$' :: '$' :: '$' :: (ds ++ '$' :: '$' :: '$' :: rest) := by
  induction s generalizing pre i rest with
  | nil => simp [splitMarker] at h
  | cons c cs ih =>
    unfold splitMarker at h
    split at h
    case h_1 j r hm =>
      simp only [Option.some.injEq, Prod.mk.injEq] at h
      obtain ⟨hpre, hi, hrest⟩ := h
      subst hpre; subst hi; subst hrest
      obtain ⟨ds, h1, h2, h3, h4⟩ := matchMarkerAt_decomp hm
      exact ⟨ds, h1, h2, h3, by rw [List.nil_append, h4]⟩
    case h_2 hm =>
      split at h
      case h_1 p j r hs =>
        simp only [Option.some.injEq, Prod.mk.injEq] at h
        obtain ⟨hpre, hi, hrest⟩ := h
        subst hpre; subst hi; subst hrest
        obtain ⟨ds, h1, h2, h3, h4⟩ := ih hs
        exact ⟨ds, h1, h2, h3, by rw [List.cons_append, h4]⟩
      case h_2 => exact absurd h (by simp)

/-! ## Text-serialization preserves markers -/

theorem serText_append (a b : List Char) :
    serText (a ++ b) = serText a ++ serText b := by
  induction a with
  | nil => rfl
  | cons c cs ih => simp [serText, ih]

theorem serTextMap_unmoved {c : Char} (h1 : c ≠ '&') (h2 : c ≠ '<') (h3 : c ≠ '>') :
    serTextMap c = [c] := by
  simp [serTextMap, h1, h2, h3]

theorem serTextMap_digit {c : Char} (h : c.isDigit = true) : serTextMap c = [c] := by
  refine serTextMap_unmoved ?_ ?_ ?_ <;>
    { intro he; rw [he] at h; exact absurd h (by decide) }

theorem serText_id_of_unmoved {l : List Char} (h : ∀ c ∈ l, serTextMap c = [c]) :
    serText l = l := by
  induction l with
  | nil => rfl
  | cons c cs ih =>
    show serTextMap c ++ serText cs = c :: cs
    rw [h c (List.mem_cons_self c cs), ih (fun d hd => h d (List.mem_cons_of_mem c hd)),
      List.cons_append, List.nil_append]

theorem containsMarker_serText {s : List Char} (h : containsMarker s = true) :
    containsMarker (serText s) = true := by
  unfold containsMarker at h
  cases hs : splitMarker s with
  | none => rw [hs] at h; exact absurd h (by simp)
  | some v =>
    obtain ⟨pre, i, rest⟩ := v
    obtain ⟨ds, hne, hdig, hi, hdecomp⟩ := splitMarker_decomp hs
    subst hdecomp
    rw [serText_append]
    have hdollar : ∀ l : List Char, serText ('$' :: l) = '$' :: serText l := fun _ => rfl
    have hds2 : serText ds = ds :=
      serText_id_of_unmoved (fun c hc => serTextMap_digit (by
        rw [List.all_eq_true] at hdig
        exact hdig c hc))
    have hmark : serText ('$' :: '$' :: '$' :: (ds ++ '$' :: '$' :: '$' :: rest))
        = '$' :: '$' :: '$' :: (ds ++ '$' :: '$' :: '$' :: serText rest) := by
      simp only [hdollar, serText_append, hds2]
    rw [hmark]
    exact containsMarker_of_parts (serText pre) ds (serText rest) hne hdig

theorem containsMarker_false_of_serText {s : List Char}
    (h : containsMarker (serText s) = false) : containsMarker s = false := by
  cases hc : containsMarker s with
  | false => rfl
  | true => rw [containsMarker_serText hc] at h; exact absurd h (by simp)

/-! ## Trusted replacement lemmas -/

theorem containsMarker_of_mem_markerIndices {s : List Char} {i : Nat}
    (h : i ∈ markerIndices s) : containsMarker s = true := by
  rw [markerIndices_eq] at h
  cases hs : splitMarker s with
  | none => rw [hs] at h; simp at h
  | some v => unfold containsMarker; rw [hs]; rfl

theorem replaceTrusted_error_of_untrusted (results : List JSVal) :
    ∀ s i, i ∈ markerIndices s → (lookupResult results i).isTrusted = false →
      replaceTrusted results s = .error .untrustedMarkup := by
  have main : ∀ n s i, s.length ≤ n → i ∈ markerIndices s →
      (lookupResult results i).isTrusted = false →
      replaceTrusted results s = .error .untrustedMarkup := by
    intro n
    induction n using Nat.strong_induction_on with
    | _ n ih =>
      intro s i hlen hmem hunt
      rw [markerIndices_eq] at hmem
      cases hs : splitMarker s with
      | none => rw [hs] at hmem; simp at hmem
      | some v =>
        obtain ⟨pre, j, rest⟩ := v
        rw [hs] at hmem
        simp only [List.mem_cons] at hmem
        cases hv : lookupResult results j with
        | trusted t =>
          have hij : i ≠ j := by
            intro he
            rw [he, hv] at hunt
            simp [JSVal.isTrusted] at hunt
          have hrest : i ∈ markerIndices rest := by
            rcases hmem with he | hm
            · exact absurd he hij
            · exact hm
          have hrl := splitMarker_rest_lt hs
          cases n with
          | zero => omega
          | succ m =>
            have hrec := ih m (by omega) rest i (by omega) hrest hunt
            rw [replaceTrusted_eq, hs]
            simp only [hv, hrec]
        | str s2 =>
          rw [replaceTrusted_eq, hs]
          simp only [hv]
        | undef =>
          rw [replaceTrusted_eq, hs]
          simp only [hv]
  intro s i hm hu
  exact main s.length s i (Nat.le_refl _) hm hu

theorem replaceTrusted_ok_of_trusted (results : List JSVal) :
    ∀ s, (∀ i ∈ markerIndices s, (lookupResult results i).isTrusted = true) →
      replaceTrusted results s = .ok (replaceRaw results s) := by
  have main : ∀ n s, s.length ≤ n →
      (∀ i ∈ markerIndices s, (lookupResult results i).isTrusted = true) →
      replaceTrusted results s = .ok (replaceRaw results s) := by
    intro n
    induction n using Nat.strong_induction_on with
    | _ n ih =>
      intro s hlen htr
      cases hs : splitMarker s with
      | none => rw [replaceTrusted_eq, replaceRaw_eq, hs]
      | some v =>
        obtain ⟨pre, j, rest⟩ := v
        have hjmem : j ∈ markerIndices s := by
          rw [markerIndices_eq, hs]
          exact List.mem_cons_self j _
        have hjtr := htr j hjmem
        cases hv : lookupResult results j with
        | str s2 => rw [hv] at hjtr; simp [JSVal.isTrusted] at hjtr
        | undef => rw [hv] at hjtr; simp [JSVal.isTrusted] at hjtr
        | trusted t =>
          have hrl := splitMarker_rest_lt hs
          cases n with
          | zero => omega
          | succ m =>
            have hresttr : ∀ i ∈ markerIndices rest,
                (lookupResult results i).isTrusted = true := by
              intro i hi
              refine htr i ?_
              rw [markerIndices_eq, hs]
              exact List.mem_cons_of_mem j hi
            have hrec := ih m (by omega) rest (by omega) hresttr
            rw [replaceTrusted_eq, replaceRaw_eq, hs]
            simp only [hv, hrec]
            show Except.ok _ = Except.ok _
            rw [show (JSVal.trusted t).toStr = t.inner from rfl]
  intro s htr
  exact main s.length s (Nat.le_refl _) htr

/-! ## Resolution loop unfolding -/

theorem resolveForest_text (fuel : Nat) (results : List JSVal) (s : String) (ns : Forest) :
    resolveForest (fuel + 1) results (.cons (.text s) ns)
      = match resolveForest fuel results ns with
        | .error e => .error e
        | .ok ns2 => .ok (.cons (.text (String.mk (replaceRaw results s.data))) ns2) := rfl

theorem resolveForest_leaf (fuel : Nat) (results : List JSVal) (tag : String)
    (attrs : List (String × String)) (t : String) (ns : Forest) :
    resolveForest (fuel + 1) results (.cons (.element tag attrs (.cons (.text t) .nil)) ns)
      = if containsMarker (serText t.data) then
          match replaceTrusted results (serText t.data) with
          | .error e => .error e
          | .ok inner2 =>
            match resolveForest fuel results (parseFragment (String.mk inner2)) with
            | .error e => .error e
            | .ok cs2 =>
              match resolveForest fuel results ns with
              | .error e => .error e
              | .ok ns2 => .ok (.cons (.element tag (attrs.map (substAttr results)) cs2) ns2)
        else
          match resolveForest fuel results (.cons (.text t) .nil) with
          | .error e => .error e
          | .ok cs2 =>
            match resolveForest fuel results ns with
            | .error e => .error e
            | .ok ns2 => .ok (.cons (.element tag (attrs.map (substAttr results)) cs2) ns2) :=
  rfl

theorem resolveForest_nil (fuel : Nat) (results : List JSVal) :
    resolveForest fuel results .nil = .ok .nil := by
  cases fuel <;> rfl

theorem resolveForest_element_nil (fuel : Nat) (results : List JSVal) (tag : String)
    (attrs : List (String × String)) (ns : Forest) :
    resolveForest (fuel + 1) results (.cons (.element tag attrs .nil) ns)
      = match resolveForest fuel results ns with
        | .error e => .error e
        | .ok ns2 => .ok (.cons (.element tag (attrs.map (substAttr results)) .nil) ns2) := by
  show (match resolveForest fuel results Forest.nil with
    | Except.error e => Except.error e
    | Except.ok cs2 =>
      match resolveForest fuel results ns with
      | Except.error e => Except.error e
      | Except.ok ns2 =>
        Except.ok (Forest.cons (Node.element tag (attrs.map (substAttr results)) cs2) ns2)) = _
  rw [resolveForest_nil]

theorem resolveForest_element_text_cons (fuel : Nat) (results : List JSVal) (tag : String)
    (attrs : List (String × String)) (t : String) (m : Node) (ms ns : Forest) :
    resolveForest (fuel + 1) results
        (.cons (.element tag attrs (.cons (.text t) (.cons m ms))) ns)
      = match resolveForest fuel results (.cons (.text t) (.cons m ms)) with
        | .error e => .error e
        | .ok cs2 =>
          match resolveForest fuel results ns with
          | .error e => .error e
          | .ok ns2 => .ok (.cons (.element tag (attrs.map (substAttr results)) cs2) ns2) := rfl

theorem resolveForest_element_elem_cons (fuel : Nat) (results : List JSVal) (tag : String)
    (attrs : List (String × String)) (tag2 : String) (attrs2 : List (String × String))
    (cs2 ms ns : Forest) :
    resolveForest (fuel + 1) results
        (.cons (.element tag attrs (.cons (.element tag2 attrs2 cs2) ms)) ns)
      = match resolveForest fuel results (.cons (.element tag2 attrs2 cs2) ms) with
        | .error e => .error e
        | .ok kids =>
          match resolveForest fuel results ns with
          | .error e => .error e
          | .ok ns2 => .ok (.cons (.element tag (attrs.map (substAttr results)) kids) ns2) := rfl

/-! ## Claims about the interpolation engine -/

/-- C1: whenever a placeholder marker occurs in the inner markup of a
leaf element node and the interpolation result at that index is not a
TrustedValue, resolution fails with UntrustedMarkupError; when every such
result is a TrustedValue, its content is substituted as raw markup at
that position (re-parsed as the new children).  The closed instances show
the behaviour through fromTemplateLiteral on the two spec examples. -/
theorem C1_leaf_markup_trust :
    (∀ (fuel : Nat) (results : List JSVal) (tag : String)
        (attrs : List (String × String)) (t : String) (i : Nat),
      i ∈ markerIndices (serText t.data) →
      (lookupResult results i).isTrusted = false →
      resolveForest (fuel + 1) results
          (.cons (.element tag attrs (.cons (.text t) .nil)) .nil)
        = .error .untrustedMarkup)
    ∧ (∀ (fuel : Nat) (results : List JSVal) (tag : String)
        (attrs : List (String × String)) (t : String),
      containsMarker (serText t.data) = true →
      (∀ i ∈ markerIndices (serText t.data), (lookupResult results i).isTrusted = true) →
      resolveForest (fuel + 1) results
          (.cons (.element tag attrs (.cons (.text t) .nil)) .nil)
        = match resolveForest fuel results
              (parseFragment (String.mk (replaceRaw results (serText t.data)))) with
          | .error e => .error e
          | .ok cs2 => .ok (.cons (.element tag (attrs.map (substAttr results)) cs2) .nil))
    ∧ fromTemplateLiteral ["<p>", "</p>"] [.str "x"] = .error .untrustedMarkup
    ∧ fromTemplateLiteral ["<p>", "</p>"] [.trusted (TrustedHTML.escape "x")]
        = .ok ⟨"<p>x</p>"⟩ := by
  refine ⟨?_, ?_, rfl, rfl⟩
  · intro fuel results tag attrs t i hmem hunt
    rw [resolveForest_leaf, if_pos (containsMarker_of_mem_markerIndices hmem),
      replaceTrusted_error_of_untrusted results (serText t.data) i hmem hunt]
  · intro fuel results tag attrs t hcm htr
    rw [resolveForest_leaf, if_pos hcm,
      replaceTrusted_ok_of_trusted results (serText t.data) htr]
    cases hres : resolveForest fuel results
        (parseFragment (String.mk (replaceRaw results (serText t.data)))) with
    | error e => simp only [hres]
    | ok cs2 => simp only [hres, resolveForest_nil]

theorem C1_leaf_markup_trust_witness :
    resolveForest 1 [JSVal.str "x"]
        (.cons (.element "p" [] (.cons (.text "$$$0$$$") .nil)) .nil)
      = .error .untrustedMarkup
    ∧ resolveForest 2 [JSVal.trusted ⟨"Z"⟩]
        (.cons (.element "p" [] (.cons (.text "$$$0$$$") .nil)) .nil)
      = .ok (.cons (.element "p" [] (.cons (.text "Z") .nil)) .nil) :=
  ⟨C1_leaf_markup_trust.1 0 [JSVal.str "x"] "p" [] "$$$0$$$" 0 (by decide) (by decide),
    (C1_leaf_markup_trust.2.1 1 [JSVal.trusted ⟨"Z"⟩] "p" [] "$$$0$$$" (by decide)
      (by decide)).trans rfl⟩

/-- C2: an attribute whose value is a single placeholder marker
constituting the entire attribute value is replaced by the raw,
non-escaped string form of the corresponding interpolation result, with
no trust check and for a result of any type; the children of the element
are untouched, so the substituted value never re-parses as markup.  The
closed instance substitutes a script tag into an attribute through
fromTemplateLiteral: it stays literally inside the attribute value. -/
theorem C2_attribute_raw_substitution :
    (∀ (fuel : Nat) (results : List JSVal) (tag name : String) (ds : List Char)
        (pre post : List (String × String)),
      ds ≠ [] → ds.all Char.isDigit = true →
      resolveForest (fuel + 1) results
          (.cons (.element tag
            (pre ++ (name, String.mk ('$' :: '$' :: '$' :: (ds ++ ['$', '$', '$']))) :: post)
            .nil) .nil)
        = .ok (.cons (.element tag
            (pre.map (substAttr results)
              ++ (name, (lookupResult results (digitsToNat ds)).toStr)
                :: post.map (substAttr results)) .nil) .nil))
    ∧ fromTemplateLiteral ["<div data-x=\"", "\"></div>"]
        [.str "<script>alert(1)</script>"]
        = .ok ⟨"<div data-x=\"<script>alert(1)</script>\"></div>"⟩ := by
  refine ⟨?_, rfl⟩
  intro fuel results tag name ds pre post hne hdig
  have hsub : substAttr results (name, String.mk ('$' :: '$' :: '$' :: (ds ++ ['$', '$', '$'])))
      = (name, (lookupResult results (digitsToNat ds)).toStr) := by
    unfold substAttr
    simp only
    rw [splitMarker_marker ds [] hne hdig]
  rw [resolveForest_element_nil]
  simp only [resolveForest_nil, List.map_append, List.map_cons, hsub]

theorem C2_attribute_raw_substitution_witness :
    resolveForest 1 [JSVal.str "<script>alert(1)</script>"]
        (.cons (.element "div" [("data-x", "$$$0$$$")] .nil) .nil)
      = .ok (.cons (.element "div" [("data-x", "<script>alert(1)</script>")] .nil) .nil) :=
  (C2_attribute_raw_substitution.1 0 [JSVal.str "<script>alert(1)</script>"] "div" "data-x"
    ['0'] [] [] (by decide) (by decide)).trans rfl

/-- C8: a text node that is not the sole child of a leaf element (mixed
with siblings or at the top of the fragment) has each marker replaced by
the raw string form of the corresponding interpolation result, with no
trust check on the result. -/
theorem C8_stray_text_raw_substitution :
    (∀ (fuel : Nat) (results : List JSVal) (s : String) (ns : Forest),
      resolveForest (fuel + 1) results (.cons (.text s) ns)
        = match resolveForest fuel results ns with
          | .error e => .error e
          | .ok ns2 => .ok (.cons (.text (String.mk (replaceRaw results s.data))) ns2))
    ∧ (∀ (fuel : Nat) (results : List JSVal) (tag tag2 s : String),
      resolveForest (fuel + 1 + 1 + 1) results
          (.cons (.element tag []
            (.cons (.text s) (.cons (.element tag2 [] .nil) .nil))) .nil)
        = .ok (.cons (.element tag []
            (.cons (.text (String.mk (replaceRaw results s.data)))
              (.cons (.element tag2 [] .nil) .nil))) .nil))
    ∧ fromTemplateLiteral ["<i></i>", ""] [.str "x"] = .ok ⟨"<i></i>x"⟩ := by
  refine ⟨fun fuel results s ns => resolveForest_text fuel results s ns, ?_, rfl⟩
  intro fuel results tag tag2 s
  rw [resolveForest_element_text_cons (fuel + 1 + 1), resolveForest_text (fuel + 1),
    resolveForest_element_nil fuel]
  simp only [resolveForest_nil, List.map_nil]

/-- C3: the spec worked example: literal segments, a string result for
the attribute slot and an escaped TrustedValue for the leaf slot resolve
to exactly the expected markup. -/
theorem C3_template_example :
    fromTemplateLiteral ["<div id=\"", "\">", ""]
      [.str "abc", .trusted (TrustedHTML.escape "<b>")]
      = .ok ⟨"<div id=\"abc\">&lt;b&gt;</div>"⟩ := rfl

/-! ## Marker-free resolution is the identity (C9) -/

theorem joinParts_no_results : ∀ (ps : List String) (i : Nat),
    joinParts ps i 0 = concatParts ps := by
  intro ps
  induction ps with
  | nil => intro i; rfl
  | cons p ps ih =>
    intro i
    show p ++ (if i < 0 then "$$$" ++ Nat.repr i ++ "$$$" else "") ++ joinParts ps (i + 1) 0
      = p ++ concatParts ps
    rw [if_neg (Nat.not_lt_zero i), ih]
    rw [String.append_empty]

theorem map_substAttr_id (results : List JSVal) :
    ∀ {attrs : List (String × String)},
      attrs.all (fun a => !containsMarker a.2.data) = true →
      attrs.map (substAttr results) = attrs := by
  intro attrs h
  induction attrs with
  | nil => rfl
  | cons a rest ih =>
    simp only [List.all_cons, Bool.and_eq_true] at h
    have hnone : splitMarker a.2.data = none := by
      have hc := h.1
      cases hx : splitMarker a.2.data with
      | none => rfl
      | some v =>
        unfold containsMarker at hc
        rw [hx] at hc
        simp at hc
    rw [List.map_cons, ih h.2]
    congr 1
    unfold substAttr
    rw [hnone]

theorem resolveForest_id_of_noMarker (results : List JSVal) :
    ∀ fuel ns, sizeF ns < fuel → noMarkerForest ns = true →
      resolveForest fuel results ns = .ok ns := by
  intro fuel
  induction fuel using Nat.strong_induction_on with
  | _ fuel ih =>
    intro ns hsize hnm
    cases ns with
    | nil => exact resolveForest_nil fuel results
    | cons n ns2 =>
      cases fuel with
      | zero => exact absurd hsize (by omega)
      | succ f =>
        cases n with
        | text s =>
          have h1 : noMarkerNode (Node.text s) = true ∧ noMarkerForest ns2 = true := by
            simpa [noMarkerForest, Bool.and_eq_true] using hnm
          have hcm : containsMarker (serText s.data) = false := by
            have hx := h1.1
            simpa [noMarkerNode] using hx
          have hcm2 : containsMarker s.data = false := containsMarker_false_of_serText hcm
          have hsm : splitMarker s.data = none := by
            cases hx : splitMarker s.data with
            | none => rfl
            | some v =>
              unfold containsMarker at hcm2
              rw [hx] at hcm2
              simp at hcm2
          have hraw : replaceRaw results s.data = s.data := by
            rw [replaceRaw_eq, hsm]
          have hns2 : resolveForest f results ns2 = .ok ns2 := by
            refine ih f (Nat.lt_succ_self f) ns2 ?_ h1.2
            simp only [sizeF, sizeN] at hsize
            omega
          rw [resolveForest_text]
          simp only [hns2, hraw]
        | element tag attrs cs =>
          have h1 : noMarkerNode (Node.element tag attrs cs) = true
              ∧ noMarkerForest ns2 = true := by
            simpa [noMarkerForest, Bool.and_eq_true] using hnm
          have h2 : attrs.all (fun a => !containsMarker a.2.data) = true
              ∧ noMarkerForest cs = true := by
            simpa [noMarkerNode, Bool.and_eq_true] using h1.1
          have hmap : attrs.map (substAttr results) = attrs := map_substAttr_id results h2.1
          have hsizecs : sizeF cs < f := by
            simp only [sizeF, sizeN] at hsize
            omega
          have hsizens : sizeF ns2 < f := by
            simp only [sizeF, sizeN] at hsize
            omega
          have hcs : resolveForest f results cs = .ok cs :=
            ih f (Nat.lt_succ_self f) cs hsizecs h2.2
          have hns2 : resolveForest f results ns2 = .ok ns2 :=
            ih f (Nat.lt_succ_self f) ns2 hsizens h1.2
          cases cs with
          | nil =>
            rw [resolveForest_element_nil]
            simp only [hns2, hmap]
          | cons n2 ns3 =>
            cases n2 with
            | text t =>
              cases ns3 with
              | nil =>
                have hnmt : containsMarker (serText t.data) = false := by
                  have hx := h2.2
                  simpa [noMarkerForest, noMarkerNode, Bool.and_eq_true] using hx
                rw [resolveForest_leaf, if_neg (by simp [hnmt])]
                simp only [hcs, hns2, hmap]
              | cons m ms =>
                rw [resolveForest_element_text_cons]
                simp only [hcs, hns2, hmap]
            | element t2 a2 c2 =>
              rw [resolveForest_element_elem_cons]
              simp only [hcs, hns2, hmap]

/-- C9 as stated is false on this code: the join of the segments is
re-parsed and re-serialized by the fragment parser, which normalizes
markup; an unclosed element comes back closed. -/
theorem C9_no_results_counterexample :
    fromTemplateLiteral ["<b>"] [] = .ok ⟨"<b></b>"⟩ ∧ ("<b></b>" : String) ≠ "<b>" :=
  ⟨rfl, by decide⟩

/-- C9 (amended): with an empty results list, fromTemplateLiteral
returns a TrustedValue whose text is the concatenation of the literal
segments re-parsed and re-serialized by the fragment parser; the
concatenation itself is returned unchanged exactly when it is a fixed
point of that normalization.  The hypothesis excludes literal text that
collides with the placeholder marker syntax. -/
theorem C9_no_results_normalization :
    ∀ parts : List String,
      noMarkerForest (parseFragment (concatParts parts)) = true →
      fromTemplateLiteral parts [] = .ok ⟨serForest (parseFragment (concatParts parts))⟩ := by
  intro parts h
  have hjoin : joinParts parts 0 0 = concatParts parts := joinParts_no_results parts 0
  have hnmdoc : noMarkerForest (Forest.cons (Node.element "html" []
      (.cons (.element "head" [] .nil)
        (.cons (.element "body" [] (parseFragment (concatParts parts))) .nil))) .nil)
      = true := by
    simp [noMarkerForest, noMarkerNode, h]
  have hsize : sizeF (Forest.cons (Node.element "html" []
      (.cons (.element "head" [] .nil)
        (.cons (.element "body" [] (parseFragment (concatParts parts))) .nil))) .nil)
      < resolutionFuel (Node.element "html" []
      (.cons (.element "head" [] .nil)
        (.cons (.element "body" [] (parseFragment (concatParts parts))) .nil))) [] := by
    simp [resolutionFuel, sizeF, sizeN]
    omega
  have hres := resolveForest_id_of_noMarker [] _ _ hsize hnmdoc
  have hI : interpolate_ parts [] = .ok (serForest (parseFragment (concatParts parts))) := by
    show (match resolveForest (resolutionFuel (Node.element "html" []
        (.cons (.element "head" [] .nil)
          (.cons (.element "body" [] (parseFragment (joinParts parts 0 0))) .nil))) [])
        [] (Forest.cons (Node.element "html" []
        (.cons (.element "head" [] .nil)
          (.cons (.element "body" [] (parseFragment (joinParts parts 0 0))) .nil))) .nil) with
      | Except.error e => Except.error e
      | Except.ok (Forest.cons (Node.element _ _ (Forest.cons _
          (Forest.cons (Node.element _ _ bodyChildren) Forest.nil))) Forest.nil) =>
        Except.ok (serForest bodyChildren)
      | Except.ok _ => Except.ok "") = _
    rw [hjoin, hres]
  show (match interpolate_ parts [] with
    | Except.error e => Except.error e
    | Except.ok s => Except.ok (TrustedHTML.mk s)) = _
  rw [hI]

theorem C9_no_results_normalization_witness :
    fromTemplateLiteral ["<b>x</b>"] [] = .ok ⟨"<b>x</b>"⟩ :=
  (C9_no_results_normalization ["<b>x</b>"] (by decide)).trans rfl

end TrustedTypes
